import Mathlib

/-!
Shallow embedding of the Sylo E2EE pallet (`crml/sylo/src/e2ee/mod.rs`).

The pallet stores, per `(AccountId, DeviceId)` key, an ordered list of opaque
pre-key bundles, and exposes three dispatchables: `register_device`,
`replenish_pkbs` and `withdraw_pkbs`.  Substrate storage maps return the
default value (the empty vector) for absent keys, so the bundle store is
embedded as a total function from device keys to lists.  A failed dispatch
rolls back all storage writes, so each operation returns `Except Error State`:
the `error` case carries no state, matching the all-or-nothing semantics.

The `device`, `groups` and `response` sibling modules are not part of the
source under inspection; the small pieces of them this pallet calls are
modelled from the spec and marked as such.
-/

namespace SyloE2EE

/-- Account identifiers are opaque; embedded as naturals. -/
abbrev AccountId := Nat

/-- Device identifiers (`u32` in the source); embedded as naturals. -/
abbrev DeviceId := Nat

/-- `pub type PreKeyBundle = Vec<u8>`: an opaque byte sequence. -/
abbrev PreKeyBundle := List Nat

/-- Storage key of the `PreKeyBundles` map: `(T::AccountId, DeviceId)`. -/
abbrev DeviceKey := AccountId × DeviceId

/-- Group identifiers are opaque; embedded as naturals. -/
abbrev GroupId := Nat

/-- Request identifiers (`T::Hash` in the source) are opaque; embedded as naturals. -/
abbrev RequestId := Nat

/-- `const MAX_PKBS: usize = 50`. -/
def MAX_PKBS : Nat := 50

/-- `const WITHDRAW_LIST_MAX_LEN: usize = 50`. -/
def WITHDRAW_LIST_MAX_LEN : Nat := 50

/-- The pallet's `decl_error!` enum. -/
inductive Error where
  | MaxPreKeyBundle
  | VeryLargeWithdrawList
deriving DecidableEq, Repr

/-- The `PreKeyBundles` storage map.  Substrate's `map` returns the default
(empty) vector for an absent key, so it is embedded as a total function. -/
abbrev PkbStore := DeviceKey → List PreKeyBundle

/-- A point update of the `PreKeyBundles` map (`insert` / the write performed
by `mutate`). -/
def storeInsert (s : PkbStore) (k : DeviceKey) (v : List PreKeyBundle) : PkbStore :=
  fun k' => if k' = k then v else s k'

/-- An entry of the acquired-bundles result `(T::AccountId, DeviceId, PreKeyBundle)`. -/
abbrev WEntry := AccountId × DeviceId × PreKeyBundle

/-- The response mailbox, keyed by `(requester, request_id)`.
Modelled from the spec: the `response` module's storage is not in the source
under inspection; the spec describes `ResponseChannel.deliver` as a keyed
mailbox with last-write-wins semantics. -/
abbrev ResponseStore := (AccountId × RequestId) → Option (List WEntry)

/-- Modelled from the spec: `ResponseChannel.deliver(requester, request_id,
result)` — `response::Module::set_response` is not in the source under
inspection; the spec says later responses for the same key replace earlier
ones. -/
def set_response (r : ResponseStore) (who : AccountId) (req : RequestId)
    (result : List WEntry) : ResponseStore :=
  fun p => if p = (who, req) then some result else r p

/-- The full state an operation can touch: the pallet's own `PreKeyBundles`
map plus the modelled collaborator state (device registry, group memberships,
group member-device lists, response mailbox). -/
structure E2EEState where
  pkbs : PkbStore
  devices : AccountId → List DeviceId
  memberships : AccountId → List GroupId
  memberDevices : GroupId → List DeviceKey
  responses : ResponseStore

/-- `check_total_pkbs`: reads the current list for `(sender_id, device_id)`
and checks `current_pkbs.len() + pkbs_count <= MAX_PKBS`. -/
def check_total_pkbs (s : PkbStore) (sender_id : AccountId) (device_id : DeviceId)
    (pkbs_count : Nat) : Bool :=
  (s (sender_id, device_id)).length + pkbs_count ≤ MAX_PKBS

/-- Modelled from the spec: `device::Module::append_device` is not in the
source under inspection; the spec says it registers (appends) a new device id
under an account, with its failure modes out of scope. -/
def append_device (devs : AccountId → List DeviceId) (owner : AccountId)
    (device : DeviceId) : AccountId → List DeviceId :=
  fun a => if a = owner then devs a ++ [device] else devs a

/-- Modelled from the spec: `groups::Module::append_member_device` is not in
the source under inspection; the spec says it appends `(owner, device)` to the
group's member-device set, with no declared failure. -/
def append_member_device (md : GroupId → List DeviceKey) (group : GroupId)
    (owner : AccountId) (device : DeviceId) : GroupId → List DeviceKey :=
  fun g => if g = group then md g ++ [(owner, device)] else md g

/-- `fn replenish_pkbs(origin, device_id, pkbs)`: ensures
`check_total_pkbs(sender, device_id, pkbs.len())`, failing with
`MaxPreKeyBundle`; then `PreKeyBundles::mutate((sender, device_id),
|current| current.extend(pkbs))`. -/
def replenish_pkbs (st : E2EEState) (sender : AccountId) (device_id : DeviceId)
    (pkbs : List PreKeyBundle) : Except Error E2EEState :=
  if check_total_pkbs st.pkbs sender device_id pkbs.length then
    .ok { st with
      pkbs := storeInsert st.pkbs (sender, device_id)
               (st.pkbs (sender, device_id) ++ pkbs) }
  else
    .error .MaxPreKeyBundle

/-- `fn register_device(origin, device_id, pkbs)`: ensures the same
`check_total_pkbs` as replenishment; then appends the device to the sender's
device registry, appends `(sender, device_id)` as a member-device of every
group the sender belongs to, and extends the sender's bundle list. -/
def register_device (st : E2EEState) (sender : AccountId) (device_id : DeviceId)
    (pkbs : List PreKeyBundle) : Except Error E2EEState :=
  if check_total_pkbs st.pkbs sender device_id pkbs.length then
    let devs' := append_device st.devices sender device_id
    let md' := (st.memberships sender).foldl
      (fun md group_id => append_member_device md group_id sender device_id)
      st.memberDevices
    .ok { st with
      devices := devs'
      memberDevices := md'
      pkbs := storeInsert st.pkbs (sender, device_id)
               (st.pkbs (sender, device_id) ++ pkbs) }
  else
    .error .MaxPreKeyBundle

/-- The `filter_map` body of `withdraw_pkbs`, threading the storage: for each
wanted key in input order, read its list, `Vec::pop` the last element, and on
success write the shortened list back and emit `(account, device, bundle)`. -/
def withdraw_loop : PkbStore → List DeviceKey → PkbStore × List WEntry
  | s, [] => (s, [])
  | s, k :: ks =>
    match (s k).getLast? with
    | none => withdraw_loop s ks
    | some b =>
      let r := withdraw_loop (storeInsert s k (s k).dropLast) ks
      (r.1, (k.1, k.2, b) :: r.2)

/-- `fn withdraw_pkbs(origin, request_id, wanted_pkbs)`: ensures
`wanted_pkbs.len() <= WITHDRAW_LIST_MAX_LEN`, failing with
`VeryLargeWithdrawList`; then pops each wanted key in order and delivers the
acquired bundles via `response::Module::set_response(sender, request_id, ..)`. -/
def withdraw_pkbs (st : E2EEState) (sender : AccountId) (request_id : RequestId)
    (wanted_pkbs : List DeviceKey) : Except Error E2EEState :=
  if wanted_pkbs.length ≤ WITHDRAW_LIST_MAX_LEN then
    let r := withdraw_loop st.pkbs wanted_pkbs
    .ok { st with
      pkbs := r.1
      responses := set_response st.responses sender request_id r.2 }
  else
    .error .VeryLargeWithdrawList

/-- The device key of an acquired-result entry. -/
def keyOf (e : WEntry) : DeviceKey := (e.1, e.2.1)

/-- The bundles an acquired-result list carries for one particular key. -/
def acquiredFor (k : DeviceKey) (acq : List WEntry) : List PreKeyBundle :=
  (acq.filter (fun e => keyOf e = k)).map (fun e => e.2.2)

lemma storeInsert_same (s : PkbStore) (k : DeviceKey) (v : List PreKeyBundle) :
    storeInsert s k v k = v := by
  simp [storeInsert]

lemma storeInsert_other (s : PkbStore) (k k' : DeviceKey) (v : List PreKeyBundle)
    (h : k' ≠ k) : storeInsert s k v k' = s k' := by
  simp [storeInsert, h]

lemma withdraw_loop_cons_empty (s : PkbStore) (k : DeviceKey) (ks : List DeviceKey)
    (h : s k = []) : withdraw_loop s (k :: ks) = withdraw_loop s ks := by
  simp [withdraw_loop, h]

lemma withdraw_loop_cons_pop (s : PkbStore) (k : DeviceKey) (ks : List DeviceKey)
    (l : List PreKeyBundle) (b : PreKeyBundle) (h : s k = l ++ [b]) :
    withdraw_loop s (k :: ks) =
      ((withdraw_loop (storeInsert s k l) ks).1,
       (k.1, k.2, b) :: (withdraw_loop (storeInsert s k l) ks).2) := by
  simp [withdraw_loop, h, List.getLast?_concat, List.dropLast_concat]

/-- Conservation: over any single withdrawal pass, the bundles handed out for
a key together with what remains stored at that key are exactly (as a
multiset) what was stored there at the start. -/
lemma withdraw_loop_conserve (w : List DeviceKey) (s : PkbStore) (k : DeviceKey) :
    (↑(acquiredFor k (withdraw_loop s w).2) : Multiset PreKeyBundle)
      + ↑((withdraw_loop s w).1 k) = ↑(s k) := by
  induction w generalizing s with
  | nil => simp [withdraw_loop, acquiredFor]
  | cons j ks ih =>
    cases hl : (s j).getLast? with
    | none =>
      have hj : s j = [] := List.getLast?_eq_none_iff.mp hl
      rw [withdraw_loop_cons_empty s j ks hj]
      exact ih s
    | some b =>
      have hsj : s j = (s j).dropLast ++ [b] :=
        (List.dropLast_append_getLast? b hl).symm
      rw [withdraw_loop_cons_pop s j ks _ b hsj]
      by_cases hk : j = k
      · subst hk
        have hrec := ih (storeInsert s j (s j).dropLast)
        rw [storeInsert_same] at hrec
        have hfc : acquiredFor j
              ((j.1, j.2, b) :: (withdraw_loop (storeInsert s j (s j).dropLast) ks).2)
            = b :: acquiredFor j (withdraw_loop (storeInsert s j (s j).dropLast) ks).2 := by
          simp [acquiredFor, keyOf, List.filter_cons]
        rw [hfc]
        conv_rhs => rw [hsj]
        rw [← Multiset.coe_add, ← hrec]
        have hcons : (↑(b :: acquiredFor j
              (withdraw_loop (storeInsert s j (s j).dropLast) ks).2) : Multiset PreKeyBundle)
            = ↑([b] ++ acquiredFor j
              (withdraw_loop (storeInsert s j (s j).dropLast) ks).2) := rfl
        rw [hcons, ← Multiset.coe_add]
        abel
      · have hrec := ih (storeInsert s j (s j).dropLast)
        rw [storeInsert_other s j k _ (fun h => hk h.symm)] at hrec
        have hfc : acquiredFor k
              ((j.1, j.2, b) :: (withdraw_loop (storeInsert s j (s j).dropLast) ks).2)
            = acquiredFor k (withdraw_loop (storeInsert s j (s j).dropLast) ks).2 := by
          simp [acquiredFor, keyOf, List.filter_cons, hk]
        rw [hfc]
        exact hrec

/-- The keys of the acquired result form a sublist of the requested key list
(in particular input order is preserved and each entry stems from one
distinct request occurrence). -/
lemma withdraw_loop_keys_sublist (w : List DeviceKey) (s : PkbStore) :
    ((withdraw_loop s w).2.map keyOf).Sublist w := by
  induction w generalizing s with
  | nil => simp [withdraw_loop]
  | cons j ks ih =>
    cases hl : (s j).getLast? with
    | none =>
      have hj : s j = [] := List.getLast?_eq_none_iff.mp hl
      rw [withdraw_loop_cons_empty s j ks hj]
      exact (ih s).cons j
    | some b =>
      have hsj : s j = (s j).dropLast ++ [b] :=
        (List.dropLast_append_getLast? b hl).symm
      rw [withdraw_loop_cons_pop s j ks _ b hsj]
      simpa [keyOf] using (ih (storeInsert s j (s j).dropLast)).cons₂ j

/-- Frame property of the loop: a key for which no bundle was acquired is
left untouched in storage. -/
lemma withdraw_loop_frame (w : List DeviceKey) (s : PkbStore) (k : DeviceKey)
    (h : ∀ e ∈ (withdraw_loop s w).2, keyOf e ≠ k) :
    (withdraw_loop s w).1 k = s k := by
  induction w generalizing s with
  | nil => simp [withdraw_loop]
  | cons j ks ih =>
    cases hl : (s j).getLast? with
    | none =>
      have hj : s j = [] := List.getLast?_eq_none_iff.mp hl
      rw [withdraw_loop_cons_empty s j ks hj] at h ⊢
      exact ih s h
    | some b =>
      have hsj : s j = (s j).dropLast ++ [b] :=
        (List.dropLast_append_getLast? b hl).symm
      rw [withdraw_loop_cons_pop s j ks _ b hsj] at h ⊢
      have hjk : j ≠ k := by
        have := h (j.1, j.2, b) (by simp)
        simpa [keyOf] using this
      have hrest : ∀ e ∈ (withdraw_loop (storeInsert s j (s j).dropLast) ks).2,
          keyOf e ≠ k := fun e he => h e (by simp [he])
      rw [ih (storeInsert s j (s j).dropLast) hrest]
      exact storeInsert_other s j k _ (fun hh => hjk hh.symm)

/-- The loop never grows any stored list. -/
lemma withdraw_loop_length_le (w : List DeviceKey) (s : PkbStore) (k : DeviceKey) :
    ((withdraw_loop s w).1 k).length ≤ (s k).length := by
  induction w generalizing s with
  | nil => simp [withdraw_loop]
  | cons j ks ih =>
    cases hl : (s j).getLast? with
    | none =>
      have hj : s j = [] := List.getLast?_eq_none_iff.mp hl
      rw [withdraw_loop_cons_empty s j ks hj]
      exact ih s
    | some b =>
      have hsj : s j = (s j).dropLast ++ [b] :=
        (List.dropLast_append_getLast? b hl).symm
      rw [withdraw_loop_cons_pop s j ks _ b hsj]
      refine le_trans (ih (storeInsert s j (s j).dropLast)) ?_
      by_cases hk : k = j
      · subst hk
        rw [storeInsert_same]
        exact (List.length_dropLast _) ▸ Nat.sub_le _ _
      · rw [storeInsert_other s j k _ hk]

/-- On a duplicate-free request, the acquired result is pointwise determined
by the initial store: one entry per requested key whose list is non-empty,
carrying that list's last element, in request order. -/
lemma withdraw_loop_nodup_char (w : List DeviceKey) (s : PkbStore) (h : w.Nodup) :
    (withdraw_loop s w).2 =
      w.filterMap (fun k => ((s k).getLast?).map (fun b => (k.1, k.2, b))) := by
  induction w generalizing s with
  | nil => simp [withdraw_loop]
  | cons j ks ih =>
    have hjks : j ∉ ks := (List.nodup_cons.mp h).1
    have hks : ks.Nodup := (List.nodup_cons.mp h).2
    cases hl : (s j).getLast? with
    | none =>
      have hj : s j = [] := List.getLast?_eq_none_iff.mp hl
      rw [withdraw_loop_cons_empty s j ks hj]
      simp only [List.filterMap_cons, hl, Option.map_none]
      exact ih s hks
    | some b =>
      have hsj : s j = (s j).dropLast ++ [b] :=
        (List.dropLast_append_getLast? b hl).symm
      rw [withdraw_loop_cons_pop s j ks _ b hsj]
      simp only [List.filterMap_cons, hl, Option.map_some]
      refine congrArg _ ?_
      rw [ih (storeInsert s j (s j).dropLast) hks]
      refine List.filterMap_congr ?_
      intro k hk
      have : storeInsert s j (s j).dropLast k = s k :=
        storeInsert_other s j k _ (fun hh => hjks (hh ▸ hk))
      rw [this]

/-- Success characterisation of `replenish_pkbs`. -/
lemma replenish_pkbs_ok_iff (st : E2EEState) (sender : AccountId) (d : DeviceId)
    (pkbs : List PreKeyBundle) (st' : E2EEState) :
    replenish_pkbs st sender d pkbs = .ok st' ↔
      check_total_pkbs st.pkbs sender d pkbs.length = true ∧
      st' = { st with pkbs := storeInsert st.pkbs (sender, d) (st.pkbs (sender, d) ++ pkbs) } := by
  unfold replenish_pkbs
  split
  · rename_i h
    simp [h, eq_comm]
  · rename_i h
    simp [Bool.not_eq_true] at h
    simp [h]

/-- Success characterisation of `register_device`. -/
lemma register_device_ok_iff (st : E2EEState) (sender : AccountId) (d : DeviceId)
    (pkbs : List PreKeyBundle) (st' : E2EEState) :
    register_device st sender d pkbs = .ok st' ↔
      check_total_pkbs st.pkbs sender d pkbs.length = true ∧
      st' = { st with
        devices := append_device st.devices sender d
        memberDevices := (st.memberships sender).foldl
          (fun md group_id => append_member_device md group_id sender d)
          st.memberDevices
        pkbs := storeInsert st.pkbs (sender, d) (st.pkbs (sender, d) ++ pkbs) } := by
  unfold register_device
  split
  · rename_i h
    simp [h, eq_comm]
  · rename_i h
    simp [Bool.not_eq_true] at h
    simp [h]

/-- Success characterisation of `withdraw_pkbs`. -/
lemma withdraw_pkbs_ok_iff (st : E2EEState) (sender : AccountId) (rid : RequestId)
    (wanted : List DeviceKey) (st' : E2EEState) :
    withdraw_pkbs st sender rid wanted = .ok st' ↔
      wanted.length ≤ WITHDRAW_LIST_MAX_LEN ∧
      st' = { st with
        pkbs := (withdraw_loop st.pkbs wanted).1
        responses := set_response st.responses sender rid
          (withdraw_loop st.pkbs wanted).2 } := by
  unfold withdraw_pkbs
  split
  · rename_i h
    simp [h, eq_comm]
  · rename_i h
    simp [h]

/-- A state with no devices, no groups, no responses and no stored bundles. -/
def emptyState : E2EEState where
  pkbs := fun _ => []
  devices := fun _ => []
  memberships := fun _ => []
  memberDevices := fun _ => []
  responses := fun _ => none

/-- A state where key `(1, 0)` holds one bundle `[7]` and all other lists are
empty. -/
def sampleState : E2EEState :=
  { emptyState with pkbs := fun k => if k = (1, 0) then [[7]] else [] }

/-- A state where key `(1, 0)` holds the two bundles `[1], [2]` (in insertion
order) and all other lists are empty. -/
def dupState : E2EEState :=
  { emptyState with pkbs := fun k => if k = (1, 0) then [[1], [2]] else [] }

/-- A state where key `(1, 0)` is at full capacity (`MAX_PKBS` bundles). -/
def fullState : E2EEState :=
  { emptyState with
      pkbs := fun k => if k = (1, 0) then List.replicate MAX_PKBS [9] else [] }

/-- C1: `replenish_pkbs` fails with `MaxPreKeyBundle` exactly when the key's
current bundle count plus the number of new bundles exceeds `MAX_PKBS`; the
failure case returns no new state (the bundle list is untouched — the
embedding's `error` carries the original state forward unchanged), and on
success all of the new bundles are appended, in order, to the end of that
key's list. -/
theorem replenish_pkbs_capacity (st : E2EEState) (sender : AccountId)
    (device_id : DeviceId) (pkbs : List PreKeyBundle) :
    (replenish_pkbs st sender device_id pkbs = .error .MaxPreKeyBundle
       ↔ MAX_PKBS < (st.pkbs (sender, device_id)).length + pkbs.length)
    ∧ ((st.pkbs (sender, device_id)).length + pkbs.length ≤ MAX_PKBS →
        ∃ st', replenish_pkbs st sender device_id pkbs = .ok st'
          ∧ st'.pkbs (sender, device_id) = st.pkbs (sender, device_id) ++ pkbs) := by
  constructor
  · unfold replenish_pkbs check_total_pkbs
    split
    · rename_i h
      simp only [decide_eq_true_eq] at h
      simp only [reduceCtorEq, false_iff, not_lt]
      exact h
    · rename_i h
      simp only [decide_eq_true_eq] at h
      simp only [Except.error.injEq, true_iff]
      omega
  · intro h
    refine ⟨_, (replenish_pkbs_ok_iff st sender device_id pkbs _).mpr
      ⟨by simp [check_total_pkbs, h], rfl⟩, ?_⟩
    simp [storeInsert_same]

/-- Witness for C1 at a concrete input: replenishing key `(1, 0)` of
`sampleState` with one more bundle succeeds and appends it. -/
theorem replenish_pkbs_capacity_witness :
    ((replenish_pkbs sampleState 1 0 [[8]] = .error .MaxPreKeyBundle
       ↔ MAX_PKBS < ((sampleState.pkbs (1, 0)).length + [[8]].length))
    ∧ (((sampleState.pkbs (1, 0)).length + ([[8]] : List PreKeyBundle).length ≤ MAX_PKBS) →
        ∃ st', replenish_pkbs sampleState 1 0 [[8]] = .ok st'
          ∧ st'.pkbs (1, 0) = sampleState.pkbs (1, 0) ++ [[8]])) :=
  replenish_pkbs_capacity sampleState 1 0 [[8]]

/-- C2: during any withdrawal pass, the number of successful pops for a key
plus the remaining list length equals the original length (each pop removes
exactly one bundle), and across two withdrawal passes in sequence the
multiset of bundles handed out for a key plus what remains stored equals the
original stored multiset — so no originally inserted bundle is ever handed
out twice. -/
theorem withdraw_one_time_use (s : PkbStore) (w1 w2 : List DeviceKey)
    (k : DeviceKey) :
    ((withdraw_loop s w1).1 k).length
        + (acquiredFor k (withdraw_loop s w1).2).length = (s k).length
    ∧ ((↑(acquiredFor k (withdraw_loop s w1).2)
        + ↑(acquiredFor k (withdraw_loop (withdraw_loop s w1).1 w2).2)
        + ↑((withdraw_loop (withdraw_loop s w1).1 w2).1 k) : Multiset PreKeyBundle)
        = ↑(s k)) := by
  constructor
  · have h := withdraw_loop_conserve w1 s k
    have hcard := congrArg Multiset.card h
    simp only [Multiset.card_add, Multiset.coe_card] at hcard
    omega
  · have h1 := withdraw_loop_conserve w1 s k
    have h2 := withdraw_loop_conserve w2 (withdraw_loop s w1).1 k
    rw [add_assoc, h2]
    exact h1

/-- C3: a withdrawal request longer than `WITHDRAW_LIST_MAX_LEN` fails with
`VeryLargeWithdrawList`: no new state is produced, so no bundle list is
modified and no response is delivered. -/
theorem withdraw_pkbs_length_bound (st : E2EEState) (sender : AccountId)
    (rid : RequestId) (wanted : List DeviceKey)
    (h : WITHDRAW_LIST_MAX_LEN < wanted.length) :
    withdraw_pkbs st sender rid wanted = .error .VeryLargeWithdrawList := by
  unfold withdraw_pkbs
  split
  · rename_i h'
    omega
  · rfl

/-- Witness for C3 at a concrete input: a 51-key request against the empty
state is rejected. -/
theorem withdraw_pkbs_length_bound_witness :
    WITHDRAW_LIST_MAX_LEN < (List.replicate 51 ((0, 0) : DeviceKey)).length
    ∧ withdraw_pkbs emptyState 1 2 (List.replicate 51 ((0, 0) : DeviceKey))
        = .error .VeryLargeWithdrawList :=
  ⟨by decide, withdraw_pkbs_length_bound emptyState 1 2 _ (by decide)⟩

/-- A withdrawal pass on a single key with a non-empty list pops exactly the
last (most recently appended) bundle and stores back the rest. -/
lemma withdraw_loop_single_pop (s : PkbStore) (k : DeviceKey)
    (l : List PreKeyBundle) (b : PreKeyBundle) (h : s k = l ++ [b]) :
    withdraw_loop s [k] = (storeInsert s k l, [(k.1, k.2, b)]) := by
  rw [withdraw_loop_cons_pop s k [] l b h]
  simp [withdraw_loop]

/-- C4: a withdrawal request within the length bound succeeds; exactly one
response is delivered, at `(requester, request_id)`, containing the acquired
list; the keys of the acquired list form an order-preserving sublist of the
request (so keys that yielded nothing are silently omitted, with no error and
no placeholder, and the result may be shorter than the request); and on a
duplicate-free request the result holds exactly one triple per requested key
whose list is non-empty, carrying that list's most recent bundle, in request
order. -/
theorem withdraw_pkbs_batching (st : E2EEState) (sender : AccountId)
    (rid : RequestId) (wanted : List DeviceKey)
    (hlen : wanted.length ≤ WITHDRAW_LIST_MAX_LEN) :
    ∃ st', withdraw_pkbs st sender rid wanted = .ok st'
      ∧ st'.responses (sender, rid) = some (withdraw_loop st.pkbs wanted).2
      ∧ (∀ p, p ≠ (sender, rid) → st'.responses p = st.responses p)
      ∧ ((withdraw_loop st.pkbs wanted).2.map keyOf).Sublist wanted
      ∧ (wanted.Nodup → (withdraw_loop st.pkbs wanted).2 =
          wanted.filterMap (fun k =>
            ((st.pkbs k).getLast?).map (fun b => (k.1, k.2, b)))) := by
  refine ⟨_, (withdraw_pkbs_ok_iff st sender rid wanted _).mpr ⟨hlen, rfl⟩,
    ?_, ?_, ?_, ?_⟩
  · simp [set_response]
  · intro p hp
    simp [set_response, hp]
  · exact withdraw_loop_keys_sublist wanted st.pkbs
  · exact fun h => withdraw_loop_nodup_char wanted st.pkbs h

/-- Witness for C4 at a concrete input: withdrawing `[(1,0), (2,0)]` from
`sampleState`, where `(1,0)` has one bundle and `(2,0)` has none. -/
theorem withdraw_pkbs_batching_witness :
    (([((1 : Nat), (0 : Nat)), (2, 0)] : List DeviceKey).length
        ≤ WITHDRAW_LIST_MAX_LEN)
    ∧ (∃ st', withdraw_pkbs sampleState 1 5 [(1, 0), (2, 0)] = .ok st'
      ∧ st'.responses (1, 5)
          = some (withdraw_loop sampleState.pkbs [(1, 0), (2, 0)]).2
      ∧ (∀ p, p ≠ ((1 : Nat), (5 : RequestId)) →
            st'.responses p = sampleState.responses p)
      ∧ ((withdraw_loop sampleState.pkbs [(1, 0), (2, 0)]).2.map keyOf).Sublist
          [(1, 0), (2, 0)]
      ∧ (([((1 : Nat), (0 : Nat)), (2, 0)] : List DeviceKey).Nodup →
          (withdraw_loop sampleState.pkbs [(1, 0), (2, 0)]).2 =
            ([(1, 0), (2, 0)] : List DeviceKey).filterMap (fun k =>
              ((sampleState.pkbs k).getLast?).map (fun b => (k.1, k.2, b))))) :=
  ⟨by decide, withdraw_pkbs_batching sampleState 1 5 [(1, 0), (2, 0)] (by decide)⟩

/-- C5: withdrawal pops in LIFO order: when the key's list ends in bundle `b`
the pop removes and returns exactly `b`, when the list is empty or absent the
pop yields nothing and changes nothing; consequently a key holding
`[b1, b2, b3]` yields `b3`, then `b2`, then `b1` over three successive
single-key withdrawal passes. -/
theorem withdraw_pop_lifo (s : PkbStore) (k : DeviceKey) :
    (∀ l b, s k = l ++ [b] →
        withdraw_loop s [k] = (storeInsert s k l, [(k.1, k.2, b)]))
    ∧ (s k = [] → withdraw_loop s [k] = (s, []))
    ∧ (∀ b1 b2 b3, s k = [b1, b2, b3] →
        (withdraw_loop s [k]).2 = [(k.1, k.2, b3)]
        ∧ (withdraw_loop (withdraw_loop s [k]).1 [k]).2 = [(k.1, k.2, b2)]
        ∧ (withdraw_loop (withdraw_loop (withdraw_loop s [k]).1 [k]).1 [k]).2
            = [(k.1, k.2, b1)]) := by
  refine ⟨withdraw_loop_single_pop s k, ?_, ?_⟩
  · intro h
    rw [withdraw_loop_cons_empty s k [] h]
    rfl
  · intro b1 b2 b3 h
    have e1 := withdraw_loop_single_pop s k [b1, b2] b3 (by rw [h]; rfl)
    have h2 : storeInsert s k [b1, b2] k = [b1] ++ [b2] := by
      rw [storeInsert_same]
      rfl
    have e2 := withdraw_loop_single_pop (storeInsert s k [b1, b2]) k [b1] b2 h2
    have h3 : storeInsert (storeInsert s k [b1, b2]) k [b1] k = [] ++ [b1] := by
      rw [storeInsert_same]
      rfl
    have e3 := withdraw_loop_single_pop
      (storeInsert (storeInsert s k [b1, b2]) k [b1]) k [] b1 h3
    rw [e1]
    simp only [e2, e3]
    simp

/-- The store used to exhibit the LIFO scenario: key `(1, 0)` holds the three
bundles `[1], [2], [3]` in insertion order. -/
def lifoStore : PkbStore := fun k => if k = (1, 0) then [[1], [2], [3]] else []

/-- Witness for C5 at a concrete input: three single-key withdrawals against
`lifoStore` pop `[3]`, `[2]`, `[1]` in that order. -/
theorem withdraw_pop_lifo_witness :
    lifoStore (1, 0) = [[1], [2], [3]]
    ∧ ((withdraw_loop lifoStore [(1, 0)]).2 = [(1, 0, [3])]
      ∧ (withdraw_loop (withdraw_loop lifoStore [(1, 0)]).1 [(1, 0)]).2
          = [(1, 0, [2])]
      ∧ (withdraw_loop
          (withdraw_loop (withdraw_loop lifoStore [(1, 0)]).1 [(1, 0)]).1
          [(1, 0)]).2 = [(1, 0, [1])]) :=
  ⟨rfl, (withdraw_pop_lifo lifoStore (1, 0)).2.2 [1] [2] [3] rfl⟩

/-- C6: every operation preserves the global capacity invariant: starting
from a state in which every bundle list has length at most `MAX_PKBS`, any
successful `register_device`, `replenish_pkbs` or `withdraw_pkbs` yields a
state in which every bundle list still has length at most `MAX_PKBS`. -/
theorem capacity_invariant_preserved (st : E2EEState)
    (hinv : ∀ k, (st.pkbs k).length ≤ MAX_PKBS) :
    (∀ sender d pkbs st', register_device st sender d pkbs = .ok st' →
        ∀ k, (st'.pkbs k).length ≤ MAX_PKBS)
    ∧ (∀ sender d pkbs st', replenish_pkbs st sender d pkbs = .ok st' →
        ∀ k, (st'.pkbs k).length ≤ MAX_PKBS)
    ∧ (∀ sender rid wanted st', withdraw_pkbs st sender rid wanted = .ok st' →
        ∀ k, (st'.pkbs k).length ≤ MAX_PKBS) := by
  refine ⟨?_, ?_, ?_⟩
  · intro sender d pkbs st' hok k
    obtain ⟨hchk, rfl⟩ := (register_device_ok_iff st sender d pkbs st').mp hok
    simp only [check_total_pkbs, decide_eq_true_eq] at hchk
    by_cases hk : k = (sender, d)
    · subst hk
      simpa [storeInsert_same] using hchk
    · simpa [storeInsert_other _ _ _ _ hk] using hinv k
  · intro sender d pkbs st' hok k
    obtain ⟨hchk, rfl⟩ := (replenish_pkbs_ok_iff st sender d pkbs st').mp hok
    simp only [check_total_pkbs, decide_eq_true_eq] at hchk
    by_cases hk : k = (sender, d)
    · subst hk
      simpa [storeInsert_same] using hchk
    · simpa [storeInsert_other _ _ _ _ hk] using hinv k
  · intro sender rid wanted st' hok k
    obtain ⟨hlen, rfl⟩ := (withdraw_pkbs_ok_iff st sender rid wanted st').mp hok
    exact le_trans (withdraw_loop_length_le wanted st.pkbs k) (hinv k)

/-- Witness for C6 at a concrete input: the empty state satisfies the
invariant and the theorem applies to it. -/
theorem capacity_invariant_preserved_witness :
    (∀ k, ((emptyState.pkbs k).length ≤ MAX_PKBS))
    ∧ ((∀ sender d pkbs st', register_device emptyState sender d pkbs = .ok st' →
          ∀ k, (st'.pkbs k).length ≤ MAX_PKBS)
      ∧ (∀ sender d pkbs st', replenish_pkbs emptyState sender d pkbs = .ok st' →
          ∀ k, (st'.pkbs k).length ≤ MAX_PKBS)
      ∧ (∀ sender rid wanted st', withdraw_pkbs emptyState sender rid wanted = .ok st' →
          ∀ k, (st'.pkbs k).length ≤ MAX_PKBS)) :=
  ⟨fun k => by simp [emptyState],
   capacity_invariant_preserved emptyState (fun k => by simp [emptyState])⟩

/-- C7 counterexample: withdrawing the duplicated key list `[(1,0), (1,0)]`
from a state where `(1,0)` holds two bundles delivers a result in which the
key `(1,0)` appears twice, refuting the claim that no key ever appears in the
delivered result more than once. -/
theorem withdraw_dup_key_counterexample :
    (withdraw_pkbs dupState 1 5 [(1, 0), (1, 0)]).toOption.map
        (fun st' => st'.responses (1, 5))
      = some (some [(1, 0, [2]), (1, 0, [1])])
    ∧ ¬ ((([((1 : Nat), (0 : Nat), ([2] : PreKeyBundle)), (1, 0, [1])] :
          List WEntry).map keyOf).Nodup) := by
  constructor
  · rfl
  · decide

/-- C7 (amended): for a withdrawal request whose key list contains no
duplicate keys, no key appears in the delivered result more than once. -/
theorem withdraw_result_keys_nodup (st : E2EEState) (sender : AccountId)
    (rid : RequestId) (wanted : List DeviceKey) (hnodup : wanted.Nodup)
    (st' : E2EEState) (hok : withdraw_pkbs st sender rid wanted = .ok st')
    (res : List WEntry) (hres : st'.responses (sender, rid) = some res) :
    (res.map keyOf).Nodup := by
  obtain ⟨hlen, rfl⟩ := (withdraw_pkbs_ok_iff st sender rid wanted st').mp hok
  have hres' : (withdraw_loop st.pkbs wanted).2 = res := by
    simpa [set_response] using hres
  rw [← hres']
  exact (withdraw_loop_keys_sublist wanted st.pkbs).nodup hnodup

/-- Witness for the amended C7 at a concrete input: the duplicate-free
request `[(1,0), (2,0)]` against `sampleState` delivers a result whose keys
are duplicate-free. -/
theorem withdraw_result_keys_nodup_witness :
    (([((1 : Nat), (0 : Nat)), (2, 0)] : List DeviceKey).Nodup)
    ∧ ((([((1 : Nat), (0 : Nat), ([7] : PreKeyBundle))] :
          List WEntry).map keyOf).Nodup) :=
  ⟨by decide,
   withdraw_result_keys_nodup sampleState 1 5 [(1, 0), (2, 0)] (by decide)
     _ rfl [(1, 0, [7])] rfl⟩

/-- Folding the per-group member-device append over a group list appends
`(owner, device)` to each group's member-device list once per occurrence of
that group in the list. -/
lemma foldl_append_member_device (gs : List GroupId)
    (md : GroupId → List DeviceKey) (owner : AccountId) (device : DeviceId)
    (g : GroupId) :
    (gs.foldl (fun mdAcc gid => append_member_device mdAcc gid owner device) md) g
      = md g ++ List.replicate (gs.count g) (owner, device) := by
  induction gs generalizing md with
  | nil => simp
  | cons j rest ih =>
    simp only [List.foldl_cons]
    rw [ih]
    by_cases hg : j = g
    · subst hg
      simp [append_member_device, List.count_cons_self, List.replicate_succ,
        List.append_assoc]
    · have : (j :: rest).count g = rest.count g := by
        simp [List.count_cons, hg]
      rw [this]
      simp [append_member_device, Ne.symm hg]

/-- C8: `register_device` uses the very same capacity check as
`replenish_pkbs` and fails with `MaxPreKeyBundle` under the same condition;
on success it appends the device to the owner's device registry exactly once
(leaving other owners' registries alone), appends `(owner, device)` to the
member-device list of every group the owner currently belongs to (once per
membership occurrence, and not to any other group), and appends the initial
bundles to the `(owner, device)` bundle list. -/
theorem register_device_fanout (st : E2EEState) (sender : AccountId)
    (device_id : DeviceId) (pkbs : List PreKeyBundle) :
    (register_device st sender device_id pkbs = .error .MaxPreKeyBundle
       ↔ replenish_pkbs st sender device_id pkbs = .error .MaxPreKeyBundle)
    ∧ (check_total_pkbs st.pkbs sender device_id pkbs.length = true →
       ∃ st', register_device st sender device_id pkbs = .ok st'
         ∧ st'.devices sender = st.devices sender ++ [device_id]
         ∧ (∀ a, a ≠ sender → st'.devices a = st.devices a)
         ∧ (∀ g, st'.memberDevices g = st.memberDevices g
              ++ List.replicate ((st.memberships sender).count g)
                   (sender, device_id))
         ∧ st'.pkbs (sender, device_id) = st.pkbs (sender, device_id) ++ pkbs) := by
  constructor
  · unfold register_device replenish_pkbs
    split <;> simp
  · intro hchk
    refine ⟨_, (register_device_ok_iff st sender device_id pkbs _).mpr
      ⟨hchk, rfl⟩, ?_, ?_, ?_, ?_⟩
    · simp [append_device]
    · intro a ha
      simp [append_device, ha]
    · intro g
      exact foldl_append_member_device _ _ _ _ g
    · simp [storeInsert_same]

/-- A state in which account `1` belongs to the two groups `10` and `20`. -/
def groupState : E2EEState :=
  { emptyState with memberships := fun a => if a = 1 then [10, 20] else [] }

/-- Witness for C8 at a concrete input: registering device `0` for account
`1`, which belongs to groups `10` and `20`. -/
theorem register_device_fanout_witness :
    check_total_pkbs groupState.pkbs 1 0 ([] : List PreKeyBundle).length = true
    ∧ (∃ st', register_device groupState 1 0 [] = .ok st'
        ∧ st'.devices 1 = groupState.devices 1 ++ [0]
        ∧ (∀ a, a ≠ 1 → st'.devices a = groupState.devices a)
        ∧ (∀ g, st'.memberDevices g = groupState.memberDevices g
             ++ List.replicate ((groupState.memberships 1).count g) (1, 0))
        ∧ st'.pkbs (1, 0) = groupState.pkbs (1, 0) ++ []) :=
  ⟨by decide, (register_device_fanout groupState 1 0 []).2 (by decide)⟩

/-- C9: operations only touch the bundle lists they must: a successful
withdrawal leaves every key for which it acquired no bundle (in particular
every key not in the request, and every requested key whose list was empty)
exactly as it was, and a successful replenishment leaves every key other than
`(sender, device_id)` exactly as it was. -/
theorem ops_frame (st : E2EEState) (sender : AccountId) :
    (∀ rid wanted st', withdraw_pkbs st sender rid wanted = .ok st' →
        (∀ k, (∀ e ∈ (withdraw_loop st.pkbs wanted).2, keyOf e ≠ k) →
            st'.pkbs k = st.pkbs k)
        ∧ (∀ k, k ∉ wanted → st'.pkbs k = st.pkbs k))
    ∧ (∀ d pkbs st', replenish_pkbs st sender d pkbs = .ok st' →
        ∀ k, k ≠ (sender, d) → st'.pkbs k = st.pkbs k) := by
  constructor
  · intro rid wanted st' hok
    obtain ⟨hlen, rfl⟩ := (withdraw_pkbs_ok_iff st sender rid wanted st').mp hok
    constructor
    · intro k hk
      exact withdraw_loop_frame wanted st.pkbs k hk
    · intro k hk
      refine withdraw_loop_frame wanted st.pkbs k ?_
      intro e he heq
      refine hk ?_
      rw [← heq]
      exact (withdraw_loop_keys_sublist wanted st.pkbs).subset
        (List.mem_map_of_mem keyOf he)
  · intro d pkbs st' hok k hk
    obtain ⟨hchk, rfl⟩ := (replenish_pkbs_ok_iff st sender d pkbs st').mp hok
    exact storeInsert_other _ _ _ _ hk

/-- The state obtained by withdrawing `[(1, 0)]` from `sampleState` under
request id `5` by requester `1`. -/
def stWithdrawn : E2EEState :=
  { sampleState with
      pkbs := (withdraw_loop sampleState.pkbs [(1, 0)]).1
      responses := set_response sampleState.responses 1 5
        (withdraw_loop sampleState.pkbs [(1, 0)]).2 }

/-- Witness for C9 at a concrete input: withdrawing `[(1, 0)]` from
`sampleState` leaves the unrequested key `(2, 0)` unchanged. -/
theorem ops_frame_witness :
    (((2, 0) : DeviceKey) ∉ ([(1, 0)] : List DeviceKey))
    ∧ stWithdrawn.pkbs (2, 0) = sampleState.pkbs (2, 0) :=
  ⟨by decide, ((ops_frame sampleState 1).1 5 [(1, 0)] stWithdrawn rfl).2
      (2, 0) (by decide)⟩

/-- C10: replenishing with an empty bundle sequence is an identity on the
stored contents: for every key whose list is within capacity — including one
at full capacity `MAX_PKBS` — the capacity check passes, the call succeeds,
and every key's bundle list (the replenished one included) is unchanged. -/
theorem replenish_empty_identity (st : E2EEState) (sender : AccountId)
    (d : DeviceId) (h : (st.pkbs (sender, d)).length ≤ MAX_PKBS) :
    ∃ st', replenish_pkbs st sender d [] = .ok st'
      ∧ ∀ k, st'.pkbs k = st.pkbs k := by
  refine ⟨_, (replenish_pkbs_ok_iff st sender d [] _).mpr
    ⟨by simp [check_total_pkbs, h], rfl⟩, ?_⟩
  intro k
  by_cases hk : k = (sender, d)
  · subst hk
    simp [storeInsert_same]
  · simp [storeInsert_other _ _ _ _ hk]

/-- Witness for C10 at a concrete input: key `(1, 0)` of `fullState` holds
exactly `MAX_PKBS` bundles, and replenishing it with zero bundles succeeds
and changes nothing. -/
theorem replenish_empty_identity_witness :
    ((fullState.pkbs (1, 0)).length ≤ MAX_PKBS)
    ∧ (∃ st', replenish_pkbs fullState 1 0 [] = .ok st'
        ∧ ∀ k, st'.pkbs k = fullState.pkbs k) :=
  ⟨by decide, replenish_empty_identity fullState 1 0 (by decide)⟩

end SyloE2EE
